import Mathlib

/-!
Shallow embedding of the playback engine and spectrum analyzer of the
catty-player repository (src/audio.rs, src/player.rs, src/visualizer.rs).

Modelling conventions:
* Rust `Instant` values are integers (milliseconds); `Instant::elapsed`
  saturates at zero, modelled with `Int.toNat`.
* `f32` sample, volume and bar values are modelled as exact rationals `ℚ`;
  the properties verified here are order/clamping facts that are insensitive
  to rounding.  Division by zero is total (`x / 0 = 0`) in `ℚ`, whereas f32
  produces NaN; every theorem whose conclusion could be touched by that case
  either clamps the value into `[0,1]` first (as the source does) or is
  stated over the integer index arithmetic directly.
* The external crates (rodio's decoder/sink internals, rustfft) are
  abstracted as parameters: a decoder is an `Option Decoded` result, the FFT
  magnitude spectrum is an arbitrary function `List ℚ → ℕ → ℚ`, and f32
  `log10` is an arbitrary function `ℚ → ℚ`.
-/

namespace CattyPlayer

/-- One decoded audio stream as produced by `Decoder::new(..).convert_samples::<f32>()`:
interleaved samples plus the stream metadata the code reads from it. -/
structure Decoded where
  samples : List ℚ
  channels : ℕ
  sampleRate : ℕ
  duration : Option ℕ
deriving DecidableEq

/-- The mutable state of `AudioPlayer` (src/audio.rs): the current sink
(queued samples, paused flag, volume scalar), the stored duration, the shared
visualization sample buffer, and the wall-clock bookkeeping fields. -/
structure AudioState where
  sinkSamples : List ℚ
  sinkPaused : Bool
  volume : ℚ
  currentDuration : Option ℕ
  sampleBuffer : List ℚ
  elapsedMillis : ℕ
  startTime : Option ℤ
  pauseElapsed : ℕ
deriving DecidableEq

/-- `AudioPlayer::new`: empty sink (rodio default volume 1.0), no duration,
empty buffer, zeroed clock fields. -/
def AudioPlayer.new : AudioState :=
  { sinkSamples := [], sinkPaused := false, volume := 1, currentDuration := none
    sampleBuffer := [], elapsedMillis := 0, startTime := none, pauseElapsed := 0 }

/-- `AudioPlayer::get_elapsed_millis`: if the sink is paused return the frozen
value, else wall-clock delta from `start_time` (saturating at 0, as
`Instant::elapsed` does), else the `elapsed_millis` atomic. -/
def get_elapsed_millis (s : AudioState) (now : ℤ) : ℕ :=
  if s.sinkPaused then s.pauseElapsed
  else
    match s.startTime with
    | some st => (now - st).toNat
    | none => s.elapsedMillis

/-- `AudioPlayer::set_elapsed_millis` (the seek primitive): re-anchor
`start_time = now - millis`.  No other field is touched. -/
def set_elapsed_millis (s : AudioState) (now : ℤ) (millis : ℕ) : AudioState :=
  { s with startTime := some (now - (millis : ℤ)) }

/-- `AudioPlayer::pause`: freeze the current elapsed value into
`pause_elapsed`, then pause the sink. -/
def AudioPlayer.pause (s : AudioState) (now : ℤ) : AudioState :=
  { s with pauseElapsed := get_elapsed_millis s now, sinkPaused := true }

/-- `AudioPlayer::resume`: re-anchor `start_time = now - frozen_elapsed` and
unpause the sink. -/
def AudioPlayer.resume (s : AudioState) (now : ℤ) : AudioState :=
  { s with startTime := some (now - (s.pauseElapsed : ℤ)), sinkPaused := false }

/-- `AudioPlayer::set_volume`: passed straight to `Sink::set_volume`; the
source performs no clamping. -/
def set_volume (s : AudioState) (v : ℚ) : AudioState :=
  { s with volume := v }

/-- `AudioPlayer::get_volume`. -/
def get_volume (s : AudioState) : ℚ :=
  s.volume

/-- Errors `AudioPlayer::play` can propagate: `std::fs::read` failure,
`Decoder::new` failure, `Sink::try_new` failure. -/
inductive PlayErr where
  | ioError
  | decodeError
  | sinkError
deriving DecidableEq

/-- `AudioPlayer::play` (src/audio.rs lines 67-162), with the external world
abstracted: `data?` is the result of `std::fs::read`, `decode` is
`Decoder::new(..).convert_samples()` on those bytes (called once for the
playback cursor and once for the visualization cursor, on clones of the same
data), `sinkOk` is whether `Sink::try_new` succeeds.  Returns the error (if
any) together with the `AudioPlayer` state at the corresponding return point.
The capture thread spawned at the end is modelled separately
(`captureStep` / `appendAndTrim`). -/
def play {α : Type} (data? : Option α) (decode : α → Option Decoded)
    (sinkOk : Bool) (now : ℤ) (s : AudioState) : Option PlayErr × AudioState :=
  match data? with
  | none => (some .ioError, s)
  | some data =>
    match decode data with
    | none => (some .decodeError, s)
    | some pd =>
      match decode data with
      | none => (some .decodeError, s)
      | some _vd =>
        let s1 := { s with currentDuration := pd.duration }
        let s2 := { s1 with elapsedMillis := 0, startTime := some now }
        let s3 := { s2 with sinkSamples := [] }
        if sinkOk then
          (none, { s3 with sinkSamples := pd.samples, sinkPaused := false, volume := 1 })
        else
          (some .sinkError, s3)

/-- The `PlayerState` fields relevant to the claims (src/player.rs): the
cached volume scalar and the owned `AudioPlayer`. -/
structure PlayerState where
  volume : ℚ
  audio : AudioState
deriving DecidableEq

/-- `PlayerState::increase_volume`: `volume = (volume + 0.05).min(1.0)`,
then applied to the sink. -/
def increase_volume (p : PlayerState) : PlayerState :=
  let v := min (p.volume + 1/20) 1
  { p with volume := v, audio := set_volume p.audio v }

/-- `PlayerState::decrease_volume`: `volume = (volume - 0.05).max(0.0)`,
then applied to the sink. -/
def decrease_volume (p : PlayerState) : PlayerState :=
  let v := max (p.volume - 1/20) 0
  { p with volume := v, audio := set_volume p.audio v }

/-- One keypress on the volume controls. -/
inductive VolStep where
  | inc
  | dec
deriving DecidableEq

/-- A sequence of volume keypresses applied in order. -/
def applyVolSteps (steps : List VolStep) (p : PlayerState) : PlayerState :=
  steps.foldl (fun q st => match st with | .inc => increase_volume q | .dec => decrease_volume q) p

/-- `PlayerState::seek_forward`: read the elapsed clock, add 10000 ms, write
it back through `set_elapsed_millis`. -/
def seek_forward (p : PlayerState) (now : ℤ) : PlayerState :=
  { p with audio := set_elapsed_millis p.audio now (get_elapsed_millis p.audio now + 10000) }

/-- `PlayerState::seek_backward`: read the elapsed clock, subtract 10000 ms
saturating at 0 (`saturating_sub`), write it back. -/
def seek_backward (p : PlayerState) (now : ℤ) : PlayerState :=
  { p with audio := set_elapsed_millis p.audio now (get_elapsed_millis p.audio now - 10000) }

/-- `frames_to_skip = target_ms * sample_rate / 1000` (integer arithmetic),
as described by the spec's seek re-decode policy. -/
def framesToSkip (targetMs sampleRate : ℕ) : ℕ :=
  targetMs * sampleRate / 1000

/-- Modelled from the spec: the Output Sink contents that section 4.3's
"seek re-decode policy" prescribes after seeking to `targetMs` — the freshly
decoded sample stream with `frames_to_skip × channel_count` leading samples
discarded.  No such routine exists in src/: `set_elapsed_millis` is the whole
seek implementation. -/
def seekRedecodeSinkSpec (src : Decoded) (targetMs : ℕ) : List ℚ :=
  src.samples.drop (framesToSkip targetMs src.sampleRate * src.channels)

/-- Capture-thread downmix (src/audio.rs lines 124-135): `frames = len / channels`
(integer division), then for each frame average the `channels` interleaved
samples.  `getD _ 0` models in-bounds indexing `tmp[frame_idx * channels + ch]`
(every index used is in bounds when `frames = len / channels`). -/
def downmix (tmp : List ℚ) (channels : ℕ) : List ℚ :=
  (List.range (tmp.length / channels)).map (fun frameIdx =>
    (((List.range channels).map (fun ch => tmp.getD (frameIdx * channels + ch) 0)).sum)
      / (channels : ℚ))

/-- The mono samples one capture-thread iteration appends: the downmix when
`channels > 1`, the raw chunk otherwise. -/
def captureStep (tmp : List ℚ) (channels : ℕ) : List ℚ :=
  if 1 < channels then downmix tmp channels else tmp

/-- Capture-thread buffer maintenance (src/audio.rs lines 136-147):
`buf.extend_from_slice(&mono); if buf.len() > 8192 { buf.drain(..4096); }`. -/
def appendAndTrim (buf mono : List ℚ) : List ℚ :=
  let b := buf ++ mono
  if 8192 < b.length then b.drop 4096 else b

/-- The `Visualizer` state (src/visualizer.rs): bar heights, configured bar
count, smoothing factor, and the shared audio buffer it drains. -/
structure Visualizer where
  bars : List ℚ
  bar_count : ℕ
  smoothing : ℚ
  audio_buffer : List ℚ
deriving DecidableEq

/-- `Visualizer::new`: `bar_count` bars at 0.0, empty buffer. -/
def Visualizer.new (bar_count : ℕ) (smoothing : ℚ) : Visualizer :=
  { bars := List.replicate bar_count 0, bar_count := bar_count
    smoothing := smoothing, audio_buffer := [] }

/-- `Visualizer::get_bars`. -/
def Visualizer.get_bars (v : Visualizer) : List ℚ :=
  v.bars

/-- `fft_size = 2048.min(buffer.len().next_power_of_two())`. -/
def fftSize (len : ℕ) : ℕ :=
  min 2048 len.nextPowerOfTwo

/-- `freqs_per_bar = spectrum_size / self.bar_count` (integer division; the
source panics when `bar_count = 0`, so theorems assume `0 < bar_count`). -/
def freqsPerBar (spectrumSize barCount : ℕ) : ℕ :=
  spectrumSize / barCount

/-- `start_idx = i * freqs_per_bar`. -/
def barStart (f i : ℕ) : ℕ :=
  i * f

/-- `end_idx = ((i + 1) * freqs_per_bar).min(spectrum_size)`. -/
def barEnd (f spectrumSize i : ℕ) : ℕ :=
  min ((i + 1) * f) spectrumSize

/-- `log_scaled`: `(if normalized > 0 {(log10 normalized + 2)/2} else {0}).max(0).min(1)`,
with f32 `log10` abstracted as a parameter. -/
def logScaled (log10 : ℚ → ℚ) (normalized : ℚ) : ℚ :=
  min (max (if 0 < normalized then (log10 normalized + 2) / 2 else 0) 0) 1

/-- The body of the per-bar loop for bar `i`: average magnitude over bins
`[start_idx, end_idx)`, normalize by the 100.0 calibration constant, clamp,
log-scale, and blend with the previous bar via the smoothing factor.
`mag j` is `input[j].norm()` after the FFT. -/
def barUpdate (mag : ℕ → ℚ) (log10 : ℚ → ℚ) (smoothing : ℚ) (spectrumSize f i : ℕ)
    (bar : ℚ) : ℚ :=
  let s := barStart f i
  let e := barEnd f spectrumSize i
  let sum := ((List.range' s (e - s)).map mag).sum
  let avg := sum / ((e - s : ℕ) : ℚ)
  let normalized := min (avg / 100) 1
  bar * smoothing + logScaled log10 normalized * (1 - smoothing)

/-- The per-bar loop over `bars.iter_mut().enumerate()` starting at index `i`,
with the source's early `break` when `start_idx >= spectrum_size` (bars past
the break keep their previous, already-decayed value). -/
def updateBarsAux (mag : ℕ → ℚ) (log10 : ℚ → ℚ) (smoothing : ℚ) (spectrumSize f : ℕ) :
    ℕ → List ℚ → List ℚ
  | _, [] => []
  | i, b :: rest =>
    if spectrumSize ≤ barStart f i then b :: rest
    else barUpdate mag log10 smoothing spectrumSize f i b ::
      updateBarsAux mag log10 smoothing spectrumSize f (i + 1) rest

/-- `Visualizer::update`.  `fftNorm samples j` abstracts rustfft's output:
the magnitude `input[j].norm()` of bin `j` after the forward FFT over
`samples`.  Empty buffer: geometric decay of every bar.  Otherwise: drain
`fft_size` samples (zero-padding a short buffer), FFT, and run the per-bar
loop. -/
def Visualizer.update (fftNorm : List ℚ → ℕ → ℚ) (log10 : ℚ → ℚ)
    (v : Visualizer) : Visualizer :=
  if v.audio_buffer.isEmpty then
    { v with bars := v.bars.map (· * v.smoothing) }
  else
    let n := fftSize v.audio_buffer.length
    let samples :=
      if n ≤ v.audio_buffer.length then v.audio_buffer.take n
      else v.audio_buffer ++ List.replicate (n - v.audio_buffer.length) 0
    let buffer' := if n ≤ v.audio_buffer.length then v.audio_buffer.drop n else []
    let spectrumSize := n / 2
    let f := freqsPerBar spectrumSize v.bar_count
    { v with audio_buffer := buffer'
             bars := updateBarsAux (fftNorm samples) log10 v.smoothing spectrumSize f 0 v.bars }

/-- The analyzer states reachable from `Visualizer::new c s`: any number of
`update` calls (each with whatever magnitudes the FFT of the drained window
produced) interleaved with external writes to the shared audio buffer (the
capture bridge appending, `update_visualizer` copying samples in). -/
inductive Reached (c : ℕ) (s : ℚ) : Visualizer → Prop where
  | init : Reached c s (Visualizer.new c s)
  | step (fftNorm : List ℚ → ℕ → ℚ) (log10 : ℚ → ℚ) (v : Visualizer) :
      Reached c s v → Reached c s (v.update fftNorm log10)
  | setBuf (buf : List ℚ) (v : Visualizer) :
      Reached c s v → Reached c s { v with audio_buffer := buf }

/-! ### Theorems -/

/-- A playing state matching the spec's scenario: a 3000 ms track started at
instant 0, not paused (so at `now = 1500` the reported elapsed is 1500 ms). -/
def clampDemo : PlayerState :=
  { volume := 1/5
    audio := { AudioPlayer.new with startTime := some 0, currentDuration := some 3000 } }

/-- Claim C1 fails on the code: from elapsed 1500 ms on a 3000 ms track,
`seek_forward` reports 11500 ms, not `min (1500 + 10000) 3000 = 3000` — the
forward seek target is never clamped to the duration. -/
theorem seek_forward_not_clamped_counterexample :
    clampDemo.audio.currentDuration = some 3000 ∧
    get_elapsed_millis clampDemo.audio 1500 = 1500 ∧
    get_elapsed_millis ((seek_forward clampDemo 1500).audio) 1500 = 11500 ∧
    min (get_elapsed_millis clampDemo.audio 1500 + 10000) 3000 = 3000 ∧
    (11500 : ℕ) ≠ 3000 := by
  refine ⟨rfl, rfl, rfl, rfl, by decide⟩

/-- Claim C1 amended: on a non-paused clock, `seek_forward` yields exactly
`elapsed + 10000` with no clamping to the duration, and `seek_backward`
yields `elapsed - 10000` saturating at 0 (so seeking to 0 or below clamps
to 0, as claimed). -/
theorem seek_elapsed_exact (p : PlayerState) (now : ℤ)
    (h : p.audio.sinkPaused = false) :
    get_elapsed_millis ((seek_forward p now).audio) now
      = get_elapsed_millis p.audio now + 10000 ∧
    get_elapsed_millis ((seek_backward p now).audio) now
      = get_elapsed_millis p.audio now - 10000 := by
  constructor <;>
    · simp only [get_elapsed_millis, seek_forward, seek_backward, set_elapsed_millis, h]
      simp only [Bool.false_eq_true, if_false]
      omega

/-- Witness for `seek_elapsed_exact` at the scenario state. -/
theorem seek_elapsed_exact_witness :
    clampDemo.audio.sinkPaused = false ∧
    (get_elapsed_millis ((seek_forward clampDemo 1500).audio) 1500
      = get_elapsed_millis clampDemo.audio 1500 + 10000 ∧
    get_elapsed_millis ((seek_backward clampDemo 1500).audio) 1500
      = get_elapsed_millis clampDemo.audio 1500 - 10000) :=
  ⟨rfl, seek_elapsed_exact clampDemo 1500 rfl⟩

/-- A playing state whose sink holds the full 4-sample decode of
`redecodeSource` (mono, 1000 Hz), started at instant 0. -/
def redecodeSource : Decoded :=
  { samples := [1, 2, 3, 4], channels := 1, sampleRate := 1000, duration := some 4 }

/-- The player state for the seek re-decode counterexample. -/
def redecodeDemo : PlayerState :=
  { volume := 1/5
    audio := { AudioPlayer.new with
                sinkSamples := [1, 2, 3, 4]
                currentDuration := some 4
                startTime := some 0 } }

/-- Claim C2 fails on the code: `seek_forward` leaves the sink's queued
samples untouched, while the spec's re-decode policy prescribes dropping
`frames_to_skip × channel_count` leading samples (here, all of them).  No
file re-open, fresh decoder, sample skipping, or sink replacement happens on
seek. -/
theorem seek_no_redecode_counterexample :
    (seek_forward redecodeDemo 0).audio.sinkSamples = redecodeDemo.audio.sinkSamples ∧
    redecodeDemo.audio.sinkSamples = redecodeSource.samples ∧
    seekRedecodeSinkSpec redecodeSource (get_elapsed_millis redecodeDemo.audio 0 + 10000)
      = [] ∧
    (seek_forward redecodeDemo 0).audio.sinkSamples
      ≠ seekRedecodeSinkSpec redecodeSource (get_elapsed_millis redecodeDemo.audio 0 + 10000) := by
  refine ⟨rfl, rfl, rfl, by decide⟩

/-- Claim C2 amended: seek is a pure clock operation.  Both seek directions
re-anchor `start_time = now − target` and change nothing else: the sink's
queued samples, paused flag and volume, the shared sample buffer, and the
stored duration are all exactly as before. -/
theorem seek_is_clock_only (p : PlayerState) (now : ℤ) :
    seek_forward p now
      = { p with audio := { p.audio with
            startTime := some (now - ((get_elapsed_millis p.audio now + 10000 : ℕ) : ℤ)) } } ∧
    seek_backward p now
      = { p with audio := { p.audio with
            startTime := some (now - ((get_elapsed_millis p.audio now - 10000 : ℕ) : ℤ)) } } :=
  ⟨rfl, rfl⟩

/-- Claim C3 confirmed: `pause()` immediately followed by `resume()` at the
same instant reports the same `elapsed_ms()` as before, for every clock
state. -/
theorem pause_resume_elapsed_id (s : AudioState) (now : ℤ) :
    get_elapsed_millis (AudioPlayer.resume (AudioPlayer.pause s now) now) now
      = get_elapsed_millis s now := by
  simp only [get_elapsed_millis, AudioPlayer.resume, AudioPlayer.pause]
  simp only [Bool.false_eq_true, if_false, if_true]
  cases h : s.sinkPaused <;> simp only [Bool.false_eq_true, if_false, if_true] <;> omega

/-- Claim C4 confirmed: when `play` returns an I/O read error
(`std::fs::read` failed) or a decode error (either `Decoder::new` failed),
the `AudioPlayer` state at the error return is exactly the entry state —
previous sink contents and paused flag, duration, elapsed clock fields and
sample buffer are untouched, so the previous session keeps playing.  (The
restriction to these two error kinds matters: a `Sink::try_new` failure
occurs after the old sink was already stopped.) -/
theorem play_error_no_side_effects {α : Type} (data? : Option α)
    (decode : α → Option Decoded) (sinkOk : Bool) (now : ℤ) (s : AudioState)
    (h : (play data? decode sinkOk now s).1 = some PlayErr.ioError ∨
         (play data? decode sinkOk now s).1 = some PlayErr.decodeError) :
    (play data? decode sinkOk now s).2 = s := by
  cases hd : data? with
  | none => simp [play, hd]
  | some data =>
    cases hdec : decode data with
    | none => simp [play, hd, hdec]
    | some pd =>
      exfalso
      rcases h with h | h <;>
        · rw [hd] at h
          simp only [play, hdec] at h
          cases sinkOk <;> simp at h

/-- Witness for `play_error_no_side_effects`: a failing file read leaves a
fresh player untouched. -/
theorem play_error_no_side_effects_witness :
    ((play (α := ℕ) none (fun _ => none) true 0 AudioPlayer.new).1
        = some PlayErr.ioError ∨
      (play (α := ℕ) none (fun _ => none) true 0 AudioPlayer.new).1
        = some PlayErr.decodeError) ∧
    (play (α := ℕ) none (fun _ => none) true 0 AudioPlayer.new).2 = AudioPlayer.new :=
  ⟨Or.inl rfl,
    play_error_no_side_effects none (fun _ => none) true 0 AudioPlayer.new (Or.inl rfl)⟩

/-- `PlayerState::new` (volume-relevant part): initial volume 0.2, applied
to the sink immediately. -/
def PlayerState.new (audio : AudioState) : PlayerState :=
  { volume := 1/5, audio := set_volume audio (1/5) }

/-- Claim C5 fails on the code: `AudioPlayer::set_volume` performs no
clamping — the out-of-range input 2.0 is applied as-is to the sink, not
clamped to the nearest bound 1.0. -/
theorem set_volume_no_clamp_counterexample :
    (1 : ℚ) < 2 ∧
    get_volume (set_volume AudioPlayer.new 2) = 2 ∧
    get_volume (set_volume AudioPlayer.new 2) ≠ 1 := by
  refine ⟨by norm_num, rfl, by norm_num [get_volume, set_volume]⟩

/-- Claim C5 amended: `set_volume` applies its argument unclamped, but the
volume actually driven through the keypress paths stays in `[0,1]`:
starting from any cached volume in `[0,1]` that matches the sink volume,
any sequence of `increase_volume`/`decrease_volume` steps keeps both the
cached and the applied (sink) volume within `[0,1]`. -/
theorem volume_steps_bounded (steps : List VolStep) (p : PlayerState)
    (h0 : 0 ≤ p.volume) (h1 : p.volume ≤ 1)
    (hs : get_volume p.audio = p.volume) :
    0 ≤ (applyVolSteps steps p).volume ∧ (applyVolSteps steps p).volume ≤ 1 ∧
    get_volume (applyVolSteps steps p).audio = (applyVolSteps steps p).volume := by
  induction steps generalizing p with
  | nil => exact ⟨h0, h1, hs⟩
  | cons st rest ih =>
    cases st with
    | inc =>
      simp only [applyVolSteps, List.foldl_cons] at *
      apply ih
      · exact le_min (by linarith) (by norm_num)
      · exact min_le_right _ _
      · rfl
    | dec =>
      simp only [applyVolSteps, List.foldl_cons] at *
      apply ih
      · exact le_max_right _ _
      · exact max_le (by linarith) (by norm_num)
      · rfl

/-- Witness for `volume_steps_bounded`: the initial 0.2 player after one
increase and one decrease. -/
theorem volume_steps_bounded_witness :
    (0 ≤ (PlayerState.new AudioPlayer.new).volume ∧
      (PlayerState.new AudioPlayer.new).volume ≤ 1 ∧
      get_volume (PlayerState.new AudioPlayer.new).audio
        = (PlayerState.new AudioPlayer.new).volume) ∧
    (0 ≤ (applyVolSteps [VolStep.inc, VolStep.dec] (PlayerState.new AudioPlayer.new)).volume ∧
      (applyVolSteps [VolStep.inc, VolStep.dec] (PlayerState.new AudioPlayer.new)).volume ≤ 1 ∧
      get_volume (applyVolSteps [VolStep.inc, VolStep.dec] (PlayerState.new AudioPlayer.new)).audio
        = (applyVolSteps [VolStep.inc, VolStep.dec] (PlayerState.new AudioPlayer.new)).volume) :=
  ⟨⟨by norm_num [PlayerState.new], by norm_num [PlayerState.new], rfl⟩,
    volume_steps_bounded [VolStep.inc, VolStep.dec] (PlayerState.new AudioPlayer.new)
      (by norm_num [PlayerState.new]) (by norm_num [PlayerState.new]) rfl⟩

/-- The per-bar loop never changes the number of bars (it mutates
`bars.iter_mut()` in place). -/
theorem updateBarsAux_length (mag : ℕ → ℚ) (log10 : ℚ → ℚ) (smoothing : ℚ)
    (spectrumSize f : ℕ) (i : ℕ) (bs : List ℚ) :
    (updateBarsAux mag log10 smoothing spectrumSize f i bs).length = bs.length := by
  induction bs generalizing i with
  | nil => rfl
  | cons b rest ih =>
    simp only [updateBarsAux]
    split
    · rfl
    · simp [ih]

/-- The clamp `.max(0.0).min(1.0)` puts `log_scaled` in `[0,1]` whatever the
(abstracted) `log10` returns. -/
theorem logScaled_mem (log10 : ℚ → ℚ) (x : ℚ) :
    0 ≤ logScaled log10 x ∧ logScaled log10 x ≤ 1 := by
  unfold logScaled
  constructor
  · exact le_min (le_max_right _ _) (by norm_num)
  · exact min_le_right _ _

/-- One bar blend stays in `[0,1]`: a convex combination (weight `smoothing`)
of the previous in-range bar and the clamped `log_scaled`. -/
theorem barUpdate_mem (mag : ℕ → ℚ) (log10 : ℚ → ℚ) (smoothing : ℚ)
    (spectrumSize f i : ℕ) (bar : ℚ)
    (hs0 : 0 ≤ smoothing) (hs1 : smoothing ≤ 1) (hb0 : 0 ≤ bar) (hb1 : bar ≤ 1) :
    0 ≤ barUpdate mag log10 smoothing spectrumSize f i bar ∧
    barUpdate mag log10 smoothing spectrumSize f i bar ≤ 1 := by
  obtain ⟨hL0, hL1⟩ := logScaled_mem log10
    (min (((List.range' (barStart f i) (barEnd f spectrumSize i - barStart f i)).map mag).sum
      / ((barEnd f spectrumSize i - barStart f i : ℕ) : ℚ) / 100) 1)
  unfold barUpdate
  constructor
  · nlinarith
  · nlinarith

/-- The per-bar loop preserves the `[0,1]` bar bound. -/
theorem updateBarsAux_mem (mag : ℕ → ℚ) (log10 : ℚ → ℚ) (smoothing : ℚ)
    (spectrumSize f : ℕ) (i : ℕ) (bs : List ℚ)
    (hs0 : 0 ≤ smoothing) (hs1 : smoothing ≤ 1)
    (hbs : ∀ b ∈ bs, 0 ≤ b ∧ b ≤ 1) :
    ∀ b ∈ updateBarsAux mag log10 smoothing spectrumSize f i bs, 0 ≤ b ∧ b ≤ 1 := by
  induction bs generalizing i with
  | nil => simp [updateBarsAux]
  | cons b rest ih =>
    simp only [updateBarsAux]
    split
    · exact hbs
    · intro x hx
      rcases List.mem_cons.1 hx with hx | hx
      · subst hx
        exact barUpdate_mem mag log10 smoothing spectrumSize f i b hs0 hs1
          (hbs b (List.mem_cons_self b rest)).1 (hbs b (List.mem_cons_self b rest)).2
      · exact ih (i + 1) (fun y hy => hbs y (List.mem_cons_of_mem b hy)) x hx

/-- `Visualizer::update` preserves the number of bars. -/
theorem update_bars_length (fftNorm : List ℚ → ℕ → ℚ) (log10 : ℚ → ℚ) (v : Visualizer) :
    (v.update fftNorm log10).bars.length = v.bars.length := by
  unfold Visualizer.update
  split
  · simp
  · simp [updateBarsAux_length]

/-- `Visualizer::update` preserves the `[0,1]` bound on every bar when the
smoothing factor is in `[0,1]`. -/
theorem update_bars_mem (fftNorm : List ℚ → ℕ → ℚ) (log10 : ℚ → ℚ) (v : Visualizer)
    (hs0 : 0 ≤ v.smoothing) (hs1 : v.smoothing ≤ 1)
    (hbs : ∀ b ∈ v.bars, 0 ≤ b ∧ b ≤ 1) :
    ∀ b ∈ (v.update fftNorm log10).bars, 0 ≤ b ∧ b ≤ 1 := by
  unfold Visualizer.update
  split
  · intro b hb
    simp only [List.mem_map] at hb
    obtain ⟨a, ha, rfl⟩ := hb
    obtain ⟨ha0, ha1⟩ := hbs a ha
    constructor
    · exact mul_nonneg ha0 hs0
    · calc a * v.smoothing ≤ 1 * 1 := by nlinarith
        _ = 1 := by norm_num
  · exact updateBarsAux_mem _ _ _ _ _ _ _ hs0 hs1 hbs

/-- The configured smoothing factor never changes after construction. -/
theorem reached_smoothing (c : ℕ) (s : ℚ) (v : Visualizer) (hv : Reached c s v) :
    v.smoothing = s := by
  induction hv with
  | init => rfl
  | step fftNorm log10 u _ ih =>
    unfold Visualizer.update
    split <;> simpa using ih
  | setBuf buf u _ ih => simpa using ih

/-- Claim C6 confirmed: in every state the analyzer can reach from
`Visualizer::new bar_count smoothing` (with positive bar count — the source
divides by `bar_count` — and smoothing in `[0,1]`), `get_bars` returns
exactly `bar_count` values, all within `[0.0, 1.0]`. -/
theorem get_bars_length_and_range (c : ℕ) (s : ℚ) (v : Visualizer)
    (hc : 0 < c) (hs0 : 0 ≤ s) (hs1 : s ≤ 1) (hv : Reached c s v) :
    v.get_bars.length = c ∧ ∀ b ∈ v.get_bars, 0 ≤ b ∧ b ≤ 1 := by
  induction hv with
  | init =>
    constructor
    · simp [Visualizer.get_bars, Visualizer.new]
    · intro b hb
      simp only [Visualizer.get_bars, Visualizer.new, List.mem_replicate] at hb
      simp [hb.2]
  | step fftNorm log10 w hw ih =>
    have hsm : w.smoothing = s := reached_smoothing c s w hw
    refine ⟨?_, ?_⟩
    · rw [Visualizer.get_bars, update_bars_length]
      exact ih.1
    · exact update_bars_mem fftNorm log10 w (hsm ▸ hs0) (hsm ▸ hs1) ih.2
  | setBuf buf w _ ih => exact ih

/-- Witness for `get_bars_length_and_range`: a 2-bar analyzer with smoothing
0.5, after one external buffer write and one update. -/
theorem get_bars_length_and_range_witness :
    ((0:ℕ) < 2 ∧ (0:ℚ) ≤ 1/2 ∧ (1:ℚ)/2 ≤ 1) ∧
    ((({ Visualizer.new 2 (1/2) with audio_buffer := [1, 1, 1, 1] } : Visualizer).update
        (fun _ _ => 5) (fun _ => 0)).get_bars.length = 2 ∧
      ∀ b ∈ (({ Visualizer.new 2 (1/2) with audio_buffer := [1, 1, 1, 1] } : Visualizer).update
        (fun _ _ => 5) (fun _ => 0)).get_bars, 0 ≤ b ∧ b ≤ 1) :=
  ⟨⟨by decide, by norm_num, by norm_num⟩,
    get_bars_length_and_range 2 (1/2) _ (by decide) (by norm_num) (by norm_num)
      (Reached.step _ _ _ (Reached.setBuf _ _ Reached.init))⟩

/-- A one-bar analyzer with smoothing 1.0 (the spec's own "1.0 freezes bars"
setting), a positive bar, and an empty buffer. -/
def decayDemo : Visualizer :=
  { bars := [1/2], bar_count := 1, smoothing := 1, audio_buffer := [] }

/-- Claim C7 fails on the code at smoothing = 1.0 (which lies in the claimed
range `[0,1]`): an empty-buffer update multiplies the positive bar 0.5 by the
smoothing factor, leaving it at 0.5 — not a strict decrease. -/
theorem analyzer_decay_not_strict_counterexample :
    ((0:ℚ) ≤ decayDemo.smoothing ∧ decayDemo.smoothing ≤ 1) ∧
    decayDemo.audio_buffer = [] ∧
    decayDemo.bars = [1/2] ∧ (0:ℚ) < 1/2 ∧
    (decayDemo.update (fun _ _ => 0) (fun _ => 0)).bars = [1/2] ∧
    ¬ ((1:ℚ)/2 < 1/2) := by
  refine ⟨⟨by norm_num [decayDemo], by norm_num [decayDemo]⟩, rfl, rfl, by norm_num, ?_, by norm_num⟩
  simp [Visualizer.update, decayDemo]

/-- Claim C7 amended: with an empty shared buffer every bar is multiplied by
the smoothing factor (exact, first conjunct).  Hence bars never increase for
smoothing in `[0,1]` (bars are nonnegative), and every positive bar strictly
decreases for smoothing in `[0,1)` — but not at smoothing = 1.0, which
freezes the bars. -/
theorem analyzer_empty_buffer_decay (v : Visualizer) (fftNorm : List ℚ → ℕ → ℚ)
    (log10 : ℚ → ℚ) (hbuf : v.audio_buffer = []) :
    (v.update fftNorm log10).bars = v.bars.map (· * v.smoothing) ∧
    (0 ≤ v.smoothing → v.smoothing ≤ 1 →
      ∀ b ∈ v.bars, 0 ≤ b → b * v.smoothing ≤ b) ∧
    (0 ≤ v.smoothing → v.smoothing < 1 →
      ∀ b ∈ v.bars, 0 < b → b * v.smoothing < b) := by
  refine ⟨?_, ?_, ?_⟩
  · simp [Visualizer.update, hbuf]
  · intro _ hs1 b _ hb0
    exact mul_le_of_le_one_right hb0 hs1
  · intro _ hs1 b _ hb0
    calc b * v.smoothing < b * 1 := by exact mul_lt_mul_of_pos_left hs1 hb0
      _ = b := mul_one b

/-- A one-bar analyzer with smoothing 0.5, bar 0.5, empty buffer. -/
def decayDemoHalf : Visualizer :=
  { bars := [1/2], bar_count := 1, smoothing := 1/2, audio_buffer := [] }

/-- Witness for `analyzer_empty_buffer_decay` at `decayDemoHalf`. -/
theorem analyzer_empty_buffer_decay_witness :
    decayDemoHalf.audio_buffer = [] ∧
    ((decayDemoHalf.update (fun _ _ => 0) (fun _ => 0)).bars
        = decayDemoHalf.bars.map (· * decayDemoHalf.smoothing) ∧
      (0 ≤ decayDemoHalf.smoothing → decayDemoHalf.smoothing ≤ 1 →
        ∀ b ∈ decayDemoHalf.bars, 0 ≤ b → b * decayDemoHalf.smoothing ≤ b) ∧
      (0 ≤ decayDemoHalf.smoothing → decayDemoHalf.smoothing < 1 →
        ∀ b ∈ decayDemoHalf.bars, 0 < b → b * decayDemoHalf.smoothing < b)) :=
  ⟨rfl, analyzer_empty_buffer_decay decayDemoHalf (fun _ _ => 0) (fun _ => 0) rfl⟩

/-- `fft_size` for a 16-sample buffer is 16. -/
theorem fftSize_16 : fftSize 16 = 16 := by
  simp [fftSize, Nat.nextPowerOfTwo, Nat.nextPowerOfTwo.go]

/-- Claim C10 fails on the code: with a 16-sample buffer (`fft_size = 16`,
`spectrum_size = 8`) and the configured `bar_count = 20`, `freqs_per_bar`
is 0, so bar 0 is processed (`start_idx = 0 < 8`) with bin-group width
`end_idx - start_idx = 0` — the per-bar average divides by zero (NaN in
f32). -/
theorem bar_divisor_zero_counterexample :
    freqsPerBar (fftSize 16 / 2) 20 = 0 ∧
    barStart (freqsPerBar (fftSize 16 / 2) 20) 0 < fftSize 16 / 2 ∧
    barEnd (freqsPerBar (fftSize 16 / 2) 20) (fftSize 16 / 2) 0
      - barStart (freqsPerBar (fftSize 16 / 2) 20) 0 = 0 := by
  rw [fftSize_16]
  refine ⟨by decide, by decide, by decide⟩

/-- Claim C10 amended: the bin-group width is strictly positive for every
processed bar whenever `bar_count ≤ spectrum_size` (equivalently
`freqs_per_bar ≥ 1`); when `bar_count` exceeds `spectrum_size` the width of
processed bar 0 is zero and the division is by zero. -/
theorem bar_divisor_pos (spectrumSize c i : ℕ) (hc : 0 < c) (hcs : c ≤ spectrumSize)
    (hi : barStart (freqsPerBar spectrumSize c) i < spectrumSize) :
    0 < barEnd (freqsPerBar spectrumSize c) spectrumSize i
        - barStart (freqsPerBar spectrumSize c) i := by
  have hf : 0 < freqsPerBar spectrumSize c := Nat.div_pos hcs hc
  simp only [barStart, barEnd]
  have hmul : (i + 1) * freqsPerBar spectrumSize c
      = i * freqsPerBar spectrumSize c + freqsPerBar spectrumSize c := by ring
  simp only [barStart] at hi
  omega

/-- Witness for `bar_divisor_pos`: `spectrum_size = 8`, `bar_count = 4`,
bar 0. -/
theorem bar_divisor_pos_witness :
    ((0:ℕ) < 4 ∧ (4:ℕ) ≤ 8 ∧ barStart (freqsPerBar 8 4) 0 < 8) ∧
    0 < barEnd (freqsPerBar 8 4) 8 0 - barStart (freqsPerBar 8 4) 0 :=
  ⟨⟨by decide, by decide, by decide⟩, bar_divisor_pos 8 4 0 (by decide) (by decide) (by decide)⟩

/-- Reading a list back by index reproduces the list. -/
theorem getD_range_self (l : List ℚ) :
    (List.range l.length).map (fun i => l.getD i 0) = l := by
  apply List.ext_getElem
  · simp
  · intro i h1 h2
    simp [List.getD, List.getElem?_eq_getElem h2]

/-- On a buffer of whole interleaved frames, the capture-thread downmix loop
produces exactly the per-frame channel averages, in frame order. -/
theorem downmix_flatten (c : ℕ) (hc : 0 < c) (frames : List (List ℚ))
    (hfr : ∀ fr ∈ frames, fr.length = c) :
    downmix frames.flatten c = frames.map (fun fr => fr.sum / (c : ℚ)) := by
  induction frames with
  | nil => simp [downmix]
  | cons fr rest ih =>
    have hfrlen : fr.length = c := hfr fr (List.mem_cons_self fr rest)
    have hflat : (fr :: rest).flatten = fr ++ rest.flatten := by simp
    have hdiv : (fr ++ rest.flatten).length / c = rest.flatten.length / c + 1 := by
      have hlen : (fr ++ rest.flatten).length = rest.flatten.length + c := by
        simp [hfrlen]; omega
      rw [hlen, Nat.add_div_right _ hc]
    rw [hflat]
    unfold downmix
    rw [hdiv, List.range_succ_eq_map]
    simp only [List.map_cons, List.map_map]
    congr 1
    · congr 1
      calc ((List.range c).map (fun ch => (fr ++ rest.flatten).getD (0 * c + ch) 0)).sum
          = ((List.range c).map (fun ch => fr.getD ch 0)).sum := by
            congr 1
            apply List.map_congr_left
            intro ch hch
            rw [List.mem_range] at hch
            rw [Nat.zero_mul, Nat.zero_add]
            exact List.getD_append fr rest.flatten 0 ch (hfrlen ▸ hch)
        _ = fr.sum := by rw [← hfrlen, getD_range_self]
    · have hrest := ih (fun g hg => hfr g (List.mem_cons_of_mem fr hg))
      unfold downmix at hrest
      rw [← hrest]
      apply List.map_congr_left
      intro k _
      simp only [Function.comp]
      congr 1
      congr 1
      apply List.map_congr_left
      intro ch _
      have hidx : Nat.succ k * c + ch = fr.length + (k * c + ch) := by
        rw [hfrlen, Nat.succ_eq_add_one]; ring
      rw [hidx, List.getD_append_right fr rest.flatten 0 _ (Nat.le_add_right _ _)]
      congr 1
      omega

/-- Claim C8 confirmed: for a captured chunk made of whole interleaved frames
with `channel_count > 1`, the downmix path maps it to the sequence of
per-frame averages over all channels, preserving frame order (for stereo,
`[L0,R0,L1,R1,...] ↦ [(L0+R0)/2, (L1+R1)/2, ...]`); with `channel_count = 1`
the chunk passes through unchanged. -/
theorem capture_downmix_average (c : ℕ) (frames : List (List ℚ)) (tmp : List ℚ)
    (hc : 1 < c) (hfr : ∀ fr ∈ frames, fr.length = c) :
    captureStep frames.flatten c = frames.map (fun fr => fr.sum / (c : ℚ)) ∧
    captureStep tmp 1 = tmp := by
  constructor
  · rw [captureStep, if_pos hc]
    exact downmix_flatten c (Nat.lt_of_lt_of_le Nat.zero_lt_one hc.le) frames hfr
  · rw [captureStep, if_neg (by omega)]

/-- Witness for `capture_downmix_average`: the stereo chunk `[1,2,3,4]`
downmixes to `[3/2, 7/2]`, and a mono chunk passes through. -/
theorem capture_downmix_average_witness :
    ((1:ℕ) < 2 ∧ ∀ fr ∈ ([[1, 2], [3, 4]] : List (List ℚ)), fr.length = 2) ∧
    (captureStep ([[1, 2], [3, 4]] : List (List ℚ)).flatten 2
        = ([[1, 2], [3, 4]] : List (List ℚ)).map (fun fr => fr.sum / (2 : ℚ)) ∧
      captureStep ([5, 6, 7] : List ℚ) 1 = [5, 6, 7]) :=
  ⟨⟨by decide, by simp⟩,
    capture_downmix_average 2 [[1, 2], [3, 4]] [5, 6, 7] (by decide) (by simp)⟩

/-- Claim C9 confirmed: after the capture thread appends a chunk, whenever
the shared buffer's length exceeds 8192 exactly the 4096 oldest samples are
dropped from the front; consequently, from a buffer within the 8192 cap and
a chunk of at most 1024 mono samples (`chunk_frames = 1024`), the buffer is
again within the cap after the iteration. -/
theorem buffer_trim_bound (buf mono : List ℚ)
    (hb : buf.length ≤ 8192) (hm : mono.length ≤ 1024) :
    (8192 < (buf ++ mono).length →
      appendAndTrim buf mono = (buf ++ mono).drop 4096) ∧
    (appendAndTrim buf mono).length ≤ 8192 := by
  constructor
  · intro h
    simp only [appendAndTrim]
    rw [if_pos h]
  · simp only [appendAndTrim]
    split <;> simp_all <;> omega

/-- Witness for `buffer_trim_bound`: a full 8192-sample buffer plus a
10-sample chunk. -/
theorem buffer_trim_bound_witness :
    ((List.replicate 8192 (0:ℚ)).length ≤ 8192 ∧
      (List.replicate 10 (0:ℚ)).length ≤ 1024) ∧
    ((8192 < (List.replicate 8192 (0:ℚ) ++ List.replicate 10 (0:ℚ)).length →
      appendAndTrim (List.replicate 8192 (0:ℚ)) (List.replicate 10 (0:ℚ))
        = (List.replicate 8192 (0:ℚ) ++ List.replicate 10 (0:ℚ)).drop 4096) ∧
    (appendAndTrim (List.replicate 8192 (0:ℚ)) (List.replicate 10 (0:ℚ))).length ≤ 8192) :=
  ⟨⟨by simp only [List.length_replicate]; decide, by simp only [List.length_replicate]; decide⟩,
    buffer_trim_bound (List.replicate 8192 0) (List.replicate 10 0)
      (by simp only [List.length_replicate]; decide)
      (by simp only [List.length_replicate]; decide)⟩

end CattyPlayer
